import Mathlib

/-!
Verification of the naudiodon audio-streaming core (`src/PaContext.cc`).

The development shallowly embeds the C++ source: bytes are `Nat`, buffers are
`List Nat`, `double` timestamps are modelled as exact rationals `ℚ`, and the
blocking queue operations return `Option` (`none` = the call would block, which
never happens in the quitting states the theorems quantify over).  The classes
`Chunks` (the chunk queue) and `AudioOptions` live in headers that are not part
of the source tree, so they are modelled from the specification; everything in
`PaContext.cc` is translated directly.
-/

namespace Streampunk

/-- A timestamped immutable byte buffer (`Chunk` of `Chunks.h`): the buffer
contents and the stream-relative timestamp of its first byte. -/
structure Chunk where
  data : List Nat
  ts : ℚ
  deriving DecidableEq

/-- Modelled from the spec: `Chunks` (the chunk queue, `Chunks.h` is not under
`src/`).  Ordered queue of chunks with a distinguished, possibly partially
consumed current chunk, a `headOffset` cursor into it, a `quitting` flag and a
capacity bound `maxQueued` (0 = unbounded). -/
structure Chunks where
  current : Option Chunk
  headOffset : Nat
  queued : List Chunk
  quitting : Bool
  maxQueued : Nat
  deriving DecidableEq

namespace Chunks

/-- Modelled from the spec: accessor for the current chunk's buffer
(`curBuf()`); `none` models the null pointer. -/
def curBuf (q : Chunks) : Option Chunk := q.current

/-- The byte list of the current chunk (empty when there is none). -/
def curData (q : Chunks) : List Nat :=
  match q.current with
  | some c => c.data
  | none => []

/-- Modelled from the spec: `curBytes()`, the length of the current chunk. -/
def curBytes (q : Chunks) : Nat := q.curData.length

/-- Modelled from the spec: `curOffset()`, bytes already consumed from the
current chunk. -/
def curOffset (q : Chunks) : Nat := q.headOffset

/-- Modelled from the spec: `curTs()`, the current chunk's timestamp. -/
def curTs (q : Chunks) : ℚ :=
  match q.current with
  | some c => c.ts
  | none => 0

/-- Modelled from the spec: `incOffset(n)` advances `headOffset` by `n`;
the caller guarantees `n ≤ curBytes - curOffset`. -/
def incOffset (q : Chunks) (n : Nat) : Chunks :=
  { q with headOffset := q.headOffset + n }

/-- Modelled from the spec: `waitNext()` pops the next queued chunk into the
current slot and resets the cursor; with an empty queue it blocks (`none`)
unless `quitting`, in which case the current-chunk state is left empty. -/
def waitNext (q : Chunks) : Option Chunks :=
  match q.queued with
  | c :: rest => some { q with current := some c, headOffset := 0, queued := rest }
  | [] =>
    if q.quitting then some { q with current := none, headOffset := 0 } else none

/-- Modelled from the spec: `push(chunk)` appends at the tail; after `quit()`
it returns without enqueuing; at capacity (`maxQueued > 0`) it blocks
(`none`). -/
def push (q : Chunks) (c : Chunk) : Option Chunks :=
  if q.quitting then some q
  else if q.maxQueued != 0 && q.maxQueued ≤ q.queued.length then none
  else some { q with queued := q.queued ++ [c] }

/-- Modelled from the spec: `quit()` sets the quitting flag, permanently. -/
def quit (q : Chunks) : Chunks := { q with quitting := true }

/-- The queue state obtained by pushing the chunks `cs` in order onto a fresh
unbounded queue and then calling `quit()`: the state a consumer drains after
the producer has finished. -/
def ofChunks (cs : List Chunk) : Chunks :=
  { current := none, headOffset := 0, queued := cs, quitting := true, maxQueued := 0 }

/-- The bytes not yet consumed: the rest of the current chunk followed by all
queued chunks. -/
def remData (q : Chunks) : List Nat :=
  q.curData.drop q.headOffset ++ (q.queued.map Chunk.data).flatten

/-- Total number of unconsumed bytes held by the queue. -/
def remBytes (q : Chunks) : Nat := q.remData.length

/-- The queue invariant: the cursor never points past the current chunk's
length (and is 0 when there is no current chunk). -/
def Valid (q : Chunks) : Prop := q.headOffset ≤ q.curBytes

instance (q : Chunks) : Decidable q.Valid := by
  unfold Valid; infer_instance

end Chunks

/-- Modelled from the spec: `AudioOptions` (`Params.h` is not under `src/`):
validated stream configuration for one direction. -/
structure AudioOptions where
  deviceID : Int
  channelCount : Nat
  sampleFormat : Nat
  sampleBits : Nat
  sampleRate : Nat
  maxQueue : Nat
  closeOnError : Bool
  deriving DecidableEq

/-- Result of one run of `PaContext::fillBuffer`: the destination buffer
contents, the returned byte count (`bufOff`), the derived timestamp, the
`finished` flag and the queue state afterwards. -/
structure FillResult where
  out : List Nat
  bytesRead : Nat
  timeStamp : ℚ
  finished : Bool
  queue : Chunks
  deriving DecidableEq

/-- The loop of `PaContext::fillBuffer` (`PaContext.cc:207-230`), one
recursive step per loop iteration, with explicit `fuel` (the C loop's
termination is proved separately: from valid states the supplied fuel is never
exhausted).  `acc` is the destination buffer written so far (`bufOff` is its
length), `ts` the timestamp out-parameter.  `none` models a blocked
`waitNext`. -/
def fillLoop (o : AudioOptions) (isInput : Bool) :
    Nat → Chunks → Nat → List Nat → ℚ → Option FillResult
  | 0, _, _, _, _ => none
  | Nat.succ fuel, q, numBytes, acc, ts =>
    if numBytes = 0 then
      some ⟨acc, acc.length, ts, false, q⟩
    else
      match (if q.curBuf.isNone || (q.curBytes == q.curOffset) then q.waitNext
             else some q) with
      | none => none
      | some q1 =>
        if q1.curBuf.isNone then
          -- queue exhausted and quitting: zero-fill the rest, finished
          some ⟨acc ++ List.replicate numBytes 0, acc.length, ts, true, q1⟩
        else
          -- offset the chunk timestamp by the chunk offset (input only)
          let ts1 := if acc.length == 0 && isInput then
              q1.curTs + (q1.curOffset : ℚ) / (o.channelCount : ℚ)
                / ((o.sampleBits / 8 : Nat) : ℚ) / (o.sampleRate : ℚ)
            else ts
          let curBytes := min numBytes (q1.curBytes - q1.curOffset)
          let copied := (q1.curData.drop q1.curOffset).take curBytes
          fillLoop o isInput fuel (q1.incOffset curBytes) (numBytes - curBytes)
            (acc ++ copied) ts1

/-- `PaContext::fillBuffer(buf, numBytes, timeStamp, chunks, finished, isInput)`
(`PaContext.cc:202-233`), with fuel ample for any valid state. -/
def fillBuffer (o : AudioOptions) (isInput : Bool) (q : Chunks) (numBytes : Nat) :
    Option FillResult :=
  fillLoop o isInput (numBytes + q.queued.length + 1) q numBytes [] 0

/-! ### Auxiliary lemmas about the fill loop -/

/-- Splitting `take n` of a concatenation at the first block. -/
theorem take_split_head {α : Type} (d R : List α) (n : Nat) :
    (d ++ R).take n
      = d.take (min n d.length)
        ++ (d.drop (min n d.length) ++ R).take (n - min n d.length) := by
  rcases Nat.le_total n d.length with h | h
  · simp [Nat.min_eq_left h, List.take_append_eq_append_take,
      Nat.sub_eq_zero_of_le h]
  · simp [Nat.min_eq_right h, List.take_append_eq_append_take,
      List.take_of_length_le h, List.drop_length]

/-- Splitting `drop n` of a concatenation at the first block. -/
theorem drop_split_head {α : Type} (d R : List α) (n : Nat) :
    (d ++ R).drop n = (d.drop (min n d.length) ++ R).drop (n - min n d.length) := by
  rcases Nat.le_total n d.length with h | h
  · simp [Nat.min_eq_left h, List.drop_append_eq_append_drop,
      Nat.sub_eq_zero_of_le h]
  · simp [Nat.min_eq_right h, List.drop_append_eq_append_drop,
      List.drop_eq_nil_of_le h, List.drop_length]

/-- When the fill loop decides to call `waitNext` (no current chunk, or the
current chunk fully consumed), the unconsumed part of the current chunk is
empty. -/
theorem cond_drop_nil (q : Chunks)
    (h : (q.curBuf.isNone || (q.curBytes == q.curOffset)) = true) :
    q.curData.drop q.headOffset = [] := by
  have h' : q.curBuf.isNone = true ∨ (q.curBytes == q.curOffset) = true := by
    simpa using h
  rcases h' with h1 | h2
  · cases hc : q.current
    · simp [Chunks.curData, hc]
    · simp [Chunks.curBuf, hc] at h1
  · have : q.curBytes = q.curOffset := by simpa using h2
    exact List.drop_eq_nil_of_le (le_of_eq this)

/-- `waitNext` always returns a valid queue state. -/
theorem waitNext_valid (q q1 : Chunks) (h : q.waitNext = some q1) : q1.Valid := by
  unfold Chunks.waitNext at h
  cases hqd : q.queued with
  | nil =>
    rw [hqd] at h
    by_cases hquit : q.quitting = true
    · simp [hquit] at h
      simp [← h, Chunks.Valid]
    · simp [hquit] at h
  | cons c rest =>
    rw [hqd] at h
    simp at h
    simp [← h, Chunks.Valid]

/-- `waitNext` preserves the quitting flag. -/
theorem waitNext_quitting (q q1 : Chunks) (h : q.waitNext = some q1) :
    q1.quitting = q.quitting := by
  unfold Chunks.waitNext at h
  cases hqd : q.queued with
  | nil =>
    rw [hqd] at h
    by_cases hquit : q.quitting = true
    · simp [hquit] at h
      simp [← h, hquit]
    · simp [hquit] at h
  | cons c rest =>
    rw [hqd] at h
    simp at h
    simp [← h]

/-- The fill loop always produces a destination buffer of exactly the
requested size: the bytes written so far plus `numBytes`. -/
theorem fillLoop_out_length (o : AudioOptions) (isInput : Bool) :
    ∀ (fuel : Nat) (q : Chunks) (n : Nat) (acc : List Nat) (ts : ℚ)
      (r : FillResult),
      fillLoop o isInput fuel q n acc ts = some r →
      r.out.length = acc.length + n := by
  intro fuel
  induction fuel with
  | zero => intro q n acc ts r h; simp [fillLoop] at h
  | succ fuel IH =>
    intro q n acc ts r h
    rw [fillLoop] at h
    by_cases hn : n = 0
    · rw [if_pos hn] at h
      simp at h
      simp [← h, hn]
    · rw [if_neg hn] at h
      cases hw : (if q.curBuf.isNone || (q.curBytes == q.curOffset)
          then q.waitNext else some q) with
      | none => rw [hw] at h; simp at h
      | some q1 =>
        rw [hw] at h
        simp only at h
        by_cases hnone : q1.curBuf.isNone = true
        · rw [if_pos hnone] at h
          simp at h
          simp [← h]
        · rw [if_neg hnone] at h
          have := IH _ _ _ _ _ h
          have hcopied : ((q1.curData.drop q1.curOffset).take
              (min n (q1.curBytes - q1.curOffset))).length
              = min n (q1.curBytes - q1.curOffset) := by
            simp only [List.length_take, List.length_drop,
              Chunks.curBytes, Chunks.curOffset]
            omega
          rw [this, List.length_append, hcopied]
          omega

/-- Unfolding: a fill-loop iteration with nothing left to request. -/
theorem fillLoop_succ_done (o : AudioOptions) (isInput : Bool) (fuel : Nat)
    (q : Chunks) (acc : List Nat) (ts : ℚ) :
    fillLoop o isInput (fuel + 1) q 0 acc ts
      = some ⟨acc, acc.length, ts, false, q⟩ := by
  rw [fillLoop]
  simp

/-- Unfolding: a fill-loop iteration that finds no current chunk after
`waitNext` zero-fills the remainder and finishes. -/
theorem fillLoop_succ_finish (o : AudioOptions) (isInput : Bool) (fuel : Nat)
    (q : Chunks) (n : Nat) (acc : List Nat) (ts : ℚ) (q1 : Chunks)
    (hn : n ≠ 0)
    (hw : (if q.curBuf.isNone || (q.curBytes == q.curOffset) then q.waitNext
           else some q) = some q1)
    (hns : q1.curBuf.isNone = true) :
    fillLoop o isInput (fuel + 1) q n acc ts
      = some ⟨acc ++ List.replicate n 0, acc.length, ts, true, q1⟩ := by
  rw [fillLoop, if_neg hn, hw]
  simp [hns]

/-- Unfolding: a fill-loop iteration that has a current chunk copies
`min numBytes (curBytes - curOffset)` bytes and recurses. -/
theorem fillLoop_succ_step (o : AudioOptions) (isInput : Bool) (fuel : Nat)
    (q : Chunks) (n : Nat) (acc : List Nat) (ts : ℚ) (q1 : Chunks)
    (hn : n ≠ 0)
    (hw : (if q.curBuf.isNone || (q.curBytes == q.curOffset) then q.waitNext
           else some q) = some q1)
    (hns : q1.curBuf.isNone = false) :
    fillLoop o isInput (fuel + 1) q n acc ts
      = fillLoop o isInput fuel
          (q1.incOffset (min n (q1.curBytes - q1.curOffset)))
          (n - min n (q1.curBytes - q1.curOffset))
          (acc ++ (q1.curData.drop q1.curOffset).take
            (min n (q1.curBytes - q1.curOffset)))
          (if acc.length == 0 && isInput then
             q1.curTs + (q1.curOffset : ℚ) / (o.channelCount : ℚ)
               / ((o.sampleBits / 8 : Nat) : ℚ) / (o.sampleRate : ℚ)
           else ts) := by
  rw [fillLoop, if_neg hn, hw]
  simp [hns]

/-- List algebra for one copy step of the fill loop: the destination buffer. -/
theorem step_out (d R acc : List Nat) (n : Nat) :
    (acc ++ d.take (min n d.length))
      ++ (d.drop (min n d.length) ++ R).take (n - min n d.length)
      ++ List.replicate ((n - min n d.length)
          - (d.drop (min n d.length) ++ R).length) 0
    = acc ++ (d ++ R).take n ++ List.replicate (n - (d ++ R).length) 0 := by
  rw [take_split_head d R n]
  have h : (n - min n d.length) - (d.drop (min n d.length) ++ R).length
      = n - (d ++ R).length := by
    simp
    omega
  rw [h]
  simp [List.append_assoc]

/-- Arithmetic for one copy step of the fill loop: the returned byte count. -/
theorem step_bytes (d R acc : List Nat) (n : Nat) :
    (acc ++ d.take (min n d.length)).length
      + min (n - min n d.length) (d.drop (min n d.length) ++ R).length
    = acc.length + min n (d ++ R).length := by
  simp
  omega

/-- Arithmetic for one copy step of the fill loop: the finished test. -/
theorem step_fin (d R : List Nat) (n : Nat) :
    ((d.drop (min n d.length) ++ R).length < n - min n d.length)
      ↔ ((d ++ R).length < n) := by
  simp
  omega

/-- Characterization of the fill loop on a quitting queue in a valid state:
it returns the next `numBytes` unconsumed bytes of the queue, zero-padded once
the queue is exhausted (in which case `finished` is set), reports the number
of real bytes copied, and consumes exactly what it returns. -/
theorem fillLoop_spec (o : AudioOptions) (isInput : Bool) :
    ∀ (fuel : Nat) (q : Chunks) (n : Nat) (acc : List Nat) (ts : ℚ),
      q.quitting = true → q.Valid → n + q.queued.length + 1 ≤ fuel →
      ∃ r, fillLoop o isInput fuel q n acc ts = some r ∧
        r.out = acc ++ q.remData.take n ++ List.replicate (n - q.remBytes) 0 ∧
        r.bytesRead = acc.length + min n q.remBytes ∧
        r.finished = decide (q.remBytes < n) ∧
        r.queue.remData = q.remData.drop n ∧
        r.queue.Valid ∧ r.queue.quitting = true := by
  intro fuel
  induction fuel with
  | zero => intro q n acc ts _ _ hf; omega
  | succ fuel IH =>
    intro q n acc ts hq hv hf
    by_cases hn : n = 0
    · subst hn
      refine ⟨⟨acc, acc.length, ts, false, q⟩, fillLoop_succ_done o isInput fuel q acc ts,
        by simp, by simp, by simp, by simp, hv, hq⟩
    · have aux : ∀ (q1 : Chunks) (c : Chunk) (ts1 : ℚ),
          q1.current = some c →
          q1.headOffset ≤ c.data.length →
          q1.quitting = true →
          q.remData = c.data.drop q1.headOffset
            ++ (q1.queued.map Chunk.data).flatten →
          n - min n (c.data.length - q1.headOffset) + q1.queued.length + 1 ≤ fuel →
          ∃ r,
            fillLoop o isInput fuel
              (q1.incOffset (min n (q1.curBytes - q1.curOffset)))
              (n - min n (q1.curBytes - q1.curOffset))
              (acc ++ (q1.curData.drop q1.curOffset).take
                (min n (q1.curBytes - q1.curOffset)))
              ts1 = some r ∧
            r.out = acc ++ q.remData.take n
              ++ List.replicate (n - q.remBytes) 0 ∧
            r.bytesRead = acc.length + min n q.remBytes ∧
            r.finished = decide (q.remBytes < n) ∧
            r.queue.remData = q.remData.drop n ∧
            r.queue.Valid ∧ r.queue.quitting = true := by
        intro q1 c ts1 hc hoff hq1 hrem hf1
        have e1 : q1.curBytes - q1.curOffset = (c.data.drop q1.headOffset).length := by
          simp [Chunks.curBytes, Chunks.curData, Chunks.curOffset, hc]
        have e2 : q1.curData.drop q1.curOffset = c.data.drop q1.headOffset := by
          simp [Chunks.curData, Chunks.curOffset, hc]
        have e3 : (q1.incOffset (min n (q1.curBytes - q1.curOffset))).remData
            = (c.data.drop q1.headOffset).drop
                (min n (c.data.drop q1.headOffset).length)
              ++ (q1.queued.map Chunk.data).flatten := by
          simp [Chunks.remData, Chunks.incOffset, Chunks.curData, Chunks.curBytes,
            Chunks.curOffset, hc, List.drop_drop]
        have e4 : (q1.incOffset (min n (q1.curBytes - q1.curOffset))).remBytes
            = ((c.data.drop q1.headOffset).drop
                (min n (c.data.drop q1.headOffset).length)
              ++ (q1.queued.map Chunk.data).flatten).length := by
          rw [Chunks.remBytes, e3]
        have hrb : q.remBytes
            = (c.data.drop q1.headOffset
              ++ (q1.queued.map Chunk.data).flatten).length := by
          rw [Chunks.remBytes, hrem]
        obtain ⟨r, hr, hout, hbytes, hfin, hqrem, hqv, hqq⟩ :=
          IH (q1.incOffset (min n (q1.curBytes - q1.curOffset)))
            (n - min n (q1.curBytes - q1.curOffset))
            (acc ++ (q1.curData.drop q1.curOffset).take
              (min n (q1.curBytes - q1.curOffset)))
            ts1
            (by simp [Chunks.incOffset, hq1])
            (by
              simp only [Chunks.Valid, Chunks.incOffset, Chunks.curBytes,
                Chunks.curData, Chunks.curOffset, hc]
              omega)
            (by
              simp only [Chunks.incOffset, e1, List.length_drop]
              omega)
        refine ⟨r, hr, ?_, ?_, ?_, ?_, hqv, hqq⟩
        · rw [hout, hrem, hrb, e3, e4, e2, e1]
          exact step_out _ _ acc n
        · rw [hbytes, hrb, e4, e2, e1]
          exact step_bytes _ _ acc n
        · rw [hfin, hrb, e4, e1, decide_eq_decide]
          exact step_fin _ _ n
        · rw [hqrem, hrem, e3, e1]
          exact (drop_split_head _ _ n).symm
      cases hcond : (q.curBuf.isNone || (q.curBytes == q.curOffset)) with
      | false =>
        have hsc : (if q.curBuf.isNone || (q.curBytes == q.curOffset)
            then q.waitNext else some q) = some q := by rw [if_neg (by simp [hcond])]
        have hcb : q.curBuf.isNone = false := by
          cases hb : q.curBuf.isNone
          · rfl
          · simp [hb] at hcond
        obtain ⟨c, hc⟩ : ∃ c, q.current = some c := by
          cases hcc : q.current with
          | none => simp [Chunks.curBuf, hcc] at hcb
          | some c => exact ⟨c, rfl⟩
        have hne : q.curBytes ≠ q.curOffset := by
          intro hcontra
          simp [hcontra] at hcond
        have hoff : q.headOffset < c.data.length := by
          have h1 : q.headOffset ≤ q.curBytes := hv
          have h2 : q.curBytes = c.data.length := by
            simp [Chunks.curBytes, Chunks.curData, hc]
          have h3 : q.curOffset = q.headOffset := rfl
          omega
        rw [fillLoop_succ_step o isInput fuel q n acc ts q hn hsc hcb]
        exact aux q c _ hc (le_of_lt hoff) hq
          (by simp [Chunks.remData, Chunks.curData, hc])
          (by
            have hm : 1 ≤ min n (c.data.length - q.headOffset) := by omega
            omega)
      | true =>
        cases hqd : q.queued with
        | nil =>
          have hwn : q.waitNext
              = some { q with current := none, headOffset := 0 } := by
            simp [Chunks.waitNext, hqd, hq]
          have hsc : (if q.curBuf.isNone || (q.curBytes == q.curOffset)
              then q.waitNext else some q)
              = some { q with current := none, headOffset := 0 } := by
            rw [if_pos hcond, hwn]
          have hrem0 : q.remData = [] := by
            simp [Chunks.remData, hqd, cond_drop_nil q hcond]
          refine ⟨⟨acc ++ List.replicate n 0, acc.length, ts, true,
              { q with current := none, headOffset := 0 }⟩,
            fillLoop_succ_finish o isInput fuel q n acc ts _ hn hsc
              (by simp [Chunks.curBuf]), ?_, ?_, ?_, ?_, ?_, ?_⟩
          · simp [hrem0, Chunks.remBytes]
          · simp [hrem0, Chunks.remBytes]
          · simp [hrem0, Chunks.remBytes, Nat.pos_of_ne_zero hn]
          · have h0 := congrArg List.length (cond_drop_nil q hcond)
            simp only [List.length_drop, List.length_nil, Chunks.curData] at h0
            simp [Chunks.remData, Chunks.curData, hrem0, hqd]
            omega
          · simp [Chunks.Valid, Chunks.curOffset]
          · simp [hq]
        | cons c rest =>
          have hwn : q.waitNext
              = some { q with current := some c, headOffset := 0, queued := rest } := by
            simp [Chunks.waitNext, hqd]
          have hsc : (if q.curBuf.isNone || (q.curBytes == q.curOffset)
              then q.waitNext else some q)
              = some { q with current := some c, headOffset := 0, queued := rest } := by
            rw [if_pos hcond, hwn]
          rw [fillLoop_succ_step o isInput fuel q n acc ts _ hn hsc
            (by simp [Chunks.curBuf])]
          exact aux _ c _ rfl (Nat.zero_le _) hq
            (by
              simp only [Chunks.remData, hqd, List.map_cons, List.flatten_cons]
              rw [cond_drop_nil q hcond]
              simp [Chunks.curData])
            (by
              simp only []
              rw [hqd] at hf
              simp at hf
              omega)

/-- Characterization of `fillBuffer` on a quitting queue in a valid state. -/
theorem fillBuffer_spec (o : AudioOptions) (isInput : Bool) (q : Chunks) (n : Nat)
    (hq : q.quitting = true) (hv : q.Valid) :
    ∃ r, fillBuffer o isInput q n = some r ∧
      r.out = q.remData.take n ++ List.replicate (n - q.remBytes) 0 ∧
      r.bytesRead = min n q.remBytes ∧
      r.finished = decide (q.remBytes < n) ∧
      r.queue.remData = q.remData.drop n ∧
      r.queue.Valid ∧ r.queue.quitting = true := by
  obtain ⟨r, hr, hout, hbytes, hfin, hqrem, hqv, hqq⟩ :=
    fillLoop_spec o isInput (n + q.queued.length + 1) q n [] 0 hq hv (le_refl _)
  exact ⟨r, hr, by simpa using hout, by simpa using hbytes, hfin, hqrem, hqv, hqq⟩

/-- Once at least one byte has been copied (`bufOff ≠ 0`), the fill loop never
touches the timestamp again: the returned timestamp is whatever was derived
before. -/
theorem fillLoop_ts_frozen (o : AudioOptions) (isInput : Bool) :
    ∀ (fuel : Nat) (q : Chunks) (n : Nat) (acc : List Nat) (ts : ℚ)
      (r : FillResult),
      acc ≠ [] → fillLoop o isInput fuel q n acc ts = some r →
      r.timeStamp = ts := by
  intro fuel
  induction fuel with
  | zero => intro q n acc ts r _ h; simp [fillLoop] at h
  | succ fuel IH =>
    intro q n acc ts r hacc h
    by_cases hn : n = 0
    · subst hn
      rw [fillLoop_succ_done] at h
      simp at h
      simp [← h]
    · cases hw : (if q.curBuf.isNone || (q.curBytes == q.curOffset)
          then q.waitNext else some q) with
      | none => rw [fillLoop, if_neg hn, hw] at h; simp at h
      | some q1 =>
        by_cases hns : q1.curBuf.isNone = true
        · rw [fillLoop_succ_finish o isInput fuel q n acc ts q1 hn hw hns] at h
          simp at h
          simp [← h]
        · rw [fillLoop_succ_step o isInput fuel q n acc ts q1 hn hw
            (by
              cases hb : q1.curBuf.isNone
              · rfl
              · exact absurd hb hns)] at h
          have hacc0 : (acc.length == 0) = false := by
            cases acc with
            | nil => exact absurd rfl hacc
            | cons a l => simp
          rw [hacc0] at h
          simp only [Bool.false_and, Bool.false_eq_true, if_false] at h
          exact IH _ _ _ _ _ (by simp [hacc]) h

/-- The fill loop preserves the queue invariant: starting from a valid state,
the head offset never ends up past the current chunk's length. -/
theorem fillLoop_valid (o : AudioOptions) (isInput : Bool) :
    ∀ (fuel : Nat) (q : Chunks) (n : Nat) (acc : List Nat) (ts : ℚ)
      (r : FillResult),
      q.Valid → fillLoop o isInput fuel q n acc ts = some r →
      r.queue.Valid := by
  intro fuel
  induction fuel with
  | zero => intro q n acc ts r _ h; simp [fillLoop] at h
  | succ fuel IH =>
    intro q n acc ts r hv h
    by_cases hn : n = 0
    · subst hn
      rw [fillLoop_succ_done] at h
      simp at h
      simp [← h, hv]
    · cases hw : (if q.curBuf.isNone || (q.curBytes == q.curOffset)
          then q.waitNext else some q) with
      | none => rw [fillLoop, if_neg hn, hw] at h; simp at h
      | some q1 =>
        have hq1v : q1.Valid := by
          by_cases hcond : (q.curBuf.isNone || (q.curBytes == q.curOffset)) = true
          · rw [if_pos hcond] at hw
            exact waitNext_valid q q1 hw
          · rw [if_neg hcond] at hw
            simp at hw
            rw [← hw]
            exact hv
        by_cases hns : q1.curBuf.isNone = true
        · rw [fillLoop_succ_finish o isInput fuel q n acc ts q1 hn hw hns] at h
          simp at h
          simp [← h, hq1v]
        · rw [fillLoop_succ_step o isInput fuel q n acc ts q1 hn hw
            (by
              cases hb : q1.curBuf.isNone
              · rfl
              · exact absurd hb hns)] at h
          apply IH _ _ _ _ _ ?_ h
          have hq1v' := hq1v
          simp only [Chunks.Valid, Chunks.curBytes, Chunks.curOffset] at hq1v' ⊢
          simp only [Chunks.incOffset, Chunks.curData] at *
          omega

/-! ### The stream context (`PaContext`) -/

/-- Callback return codes (`paContinue` / `paComplete` of portaudio.h). -/
inductive PaRet
  | paContinue
  | paComplete
  deriving DecidableEq

/-- The fields of `PaStreamCallbackTimeInfo` the callback reads. -/
structure TimeInfo where
  inputBufferAdcTime : ℚ
  outputBufferDacTime : ℚ
  deriving DecidableEq

/-- The state of a `PaContext`, with `double` timestamps as exact rationals.
`streamTime` is the value `Pa_GetStreamTime` would report (external engine
clock). -/
structure PaContextState where
  mInOptions : Option AudioOptions
  mOutOptions : Option AudioOptions
  mInChunks : Chunks
  mOutChunks : Chunks
  mErrStr : String
  mInLatency : ℚ
  streamTime : ℚ
  deriving DecidableEq

namespace PaContextState

/-- `PaContext::hasInput` (header accessor). -/
def hasInput (st : PaContextState) : Bool := st.mInOptions.isSome

/-- `PaContext::hasOutput` (header accessor). -/
def hasOutput (st : PaContextState) : Bool := st.mOutOptions.isSome

/-- `PaContext::getCurTime` (`PaContext.cc:197-199`): `Pa_GetStreamTime`. -/
def getCurTime (st : PaContextState) : ℚ := st.streamTime

/-- `PaContext::getInLatency` (header accessor for `mInLatency`). -/
def getInLatency (st : PaContextState) : ℚ := st.mInLatency

end PaContextState

/-- `paInputUnderflow` (portaudio.h). -/
def paInputUnderflow : Nat := 1
/-- `paInputOverflow` (portaudio.h). -/
def paInputOverflow : Nat := 2
/-- `paOutputUnderflow` (portaudio.h). -/
def paOutputUnderflow : Nat := 4
/-- `paOutputOverflow` (portaudio.h). -/
def paOutputOverflow : Nat := 8
/-- `paPrimingOutput` (portaudio.h). -/
def paPrimingOutput : Nat := 16

/-- `PaContext::checkStatus` (`PaContext.cc:144-161`): on any status flag,
store a formatted description as the last error, overwriting the previous
one. -/
def checkStatus (st : PaContextState) (statusFlags : Nat) : PaContextState :=
  if statusFlags ≠ 0 then
    let err := "portAudio status - "
      ++ (if statusFlags &&& paInputUnderflow ≠ 0 then "input underflow " else "")
      ++ (if statusFlags &&& paInputOverflow ≠ 0 then "input overflow " else "")
      ++ (if statusFlags &&& paOutputUnderflow ≠ 0 then "output underflow " else "")
      ++ (if statusFlags &&& paOutputOverflow ≠ 0 then "output overflow " else "")
      ++ (if statusFlags &&& paPrimingOutput ≠ 0 then "priming output " else "")
    { st with mErrStr := err }
  else st

/-- `PaContext::getErrStr` (`PaContext.cc:163-172`).  `errStr` is the
caller's in-out string; the result is `(return value, errStr after the call,
state after the call, message printed to the log side channel)`.  `none`
models the null dereference when the selected direction has no options. -/
def getErrStr (st : PaContextState) (errStr : String) (isInput : Bool) :
    Option (Bool × String × PaContextState × Option String) :=
  match (if isInput then st.mInOptions else st.mOutOptions) with
  | none => none
  | some options =>
    let errStr1 := if options.closeOnError then st.mErrStr else errStr
    let logged : Option String :=
      if options.closeOnError then none
      else if st.mErrStr.length ≠ 0 then some st.mErrStr else none
    some (!errStr1.isEmpty, errStr1, { st with mErrStr := "" }, logged)

/-- `PaContext::readPaBuffer` (`PaContext.cc:181-187`): copy one period of
input into a fresh chunk stamped with the derived timestamp and push it onto
the input queue; always reports `true`.  `none` models a blocked `push`. -/
def readPaBuffer (st : PaContextState) (srcBuf : List Nat) (frameCount : Nat)
    (inTimestamp : ℚ) : Option (PaContextState × Bool) :=
  match st.mInOptions with
  | none => none
  | some o =>
    let bytesAvailable := frameCount * o.channelCount * o.sampleBits / 8
    (st.mInChunks.push ⟨srcBuf.take bytesAvailable, inTimestamp⟩).map
      fun c => ({ st with mInChunks := c }, true)

/-- `PaContext::fillPaBuffer` (`PaContext.cc:189-195`): drain one period from
the output queue into the output buffer; reports `!finished`.  `none` models
a blocked `waitNext` (or the null options dereference). -/
def fillPaBuffer (st : PaContextState) (frameCount : Nat) :
    Option (PaContextState × List Nat × Bool) :=
  match st.mOutOptions with
  | none => none
  | some o =>
    let bytesRemaining := frameCount * o.channelCount * o.sampleBits / 8
    (fillBuffer o false st.mOutChunks bytesRemaining).map
      fun r => ({ st with mOutChunks := r.queue }, r.out, !r.finished)

/-- `PaCallback` (`PaContext.cc:23-35`): derive the input timestamp, aggregate
status flags, run the input and output paths, and signal `paComplete` only
when both directions report complete.  The result is the return code, the
state afterwards, and the bytes written to the output buffer. -/
def PaCallback (st : PaContextState) (input : List Nat) (frameCount : Nat)
    (timeInfo : TimeInfo) (statusFlags : Nat) :
    Option (PaRet × PaContextState × List Nat) :=
  let inTimestamp := if timeInfo.inputBufferAdcTime > 0 then
      timeInfo.inputBufferAdcTime
    else st.getCurTime - st.getInLatency
  let st1 := checkStatus st statusFlags
  match (if st1.hasInput then readPaBuffer st1 input frameCount inTimestamp
         else some (st1, false)) with
  | none => none
  | some (st2, inOk) =>
    let inRetCode : PaRet := if st1.hasInput && inOk then .paContinue else .paComplete
    match (if st2.hasOutput then fillPaBuffer st2 frameCount
           else some (st2, [], false)) with
    | none => none
    | some (st3, outBuf, outOk) =>
      let outRetCode : PaRet := if st2.hasOutput && outOk then .paContinue else .paComplete
      some (if inRetCode = .paComplete ∧ outRetCode = .paComplete then
          PaRet.paComplete
        else PaRet.paContinue, st3, outBuf)

/-- `PaContext::pullInChunk` (`PaContext.cc:122-138`): run the fill algorithm
against the input queue and trim the result buffer to the actual yield
(`none` data = zero bytes were produced).  The result is `(data, timestamp,
finished, state after)`; an outer `none` models a blocked `waitNext`. -/
def pullInChunk (st : PaContextState) (numBytes : Nat) :
    Option (Option (List Nat) × ℚ × Bool × PaContextState) :=
  match st.mInOptions with
  | none => none
  | some o =>
    (fillBuffer o true st.mInChunks numBytes).map fun r =>
      let result : Option (List Nat) :=
        if r.bytesRead ≠ numBytes then
          if r.bytesRead = 0 then none
          else some (r.out.take r.bytesRead)
        else some r.out
      (result, r.timeStamp, r.finished, { st with mInChunks := r.queue })

/-- `PaContext::pushOutChunk` (`PaContext.cc:140-142`): forward to the output
queue's `push`.  `none` models a blocked `push`. -/
def pushOutChunk (st : PaContextState) (chunk : Chunk) : Option PaContextState :=
  (st.mOutChunks.push chunk).map fun c => { st with mOutChunks := c }

/-! ### Construction (`PaContext::PaContext` and `setParams`) -/

/-- Engine sample formats (portaudio.h). -/
inductive PaSampleFormat
  | paFloat32
  | paInt8
  | paInt16
  | paInt24
  | paInt32
  deriving DecidableEq

/-- `paNoDevice` (portaudio.h). -/
def paNoDevice : Int := -1

/-- The facts about the external audio engine that `setParams` and the
constructor consult (PortAudio calls: initialization outcome, device table,
format-support probe, open outcome, stream info). -/
structure Engine where
  initOk : Bool
  deviceCount : Int
  defaultInputDevice : Int
  defaultOutputDevice : Int
  maxInputChannels : Int → Int
  maxOutputChannels : Int → Int
  formatSupported : Bool
  openOk : Bool
  inputLatency : ℚ

/-- The fields of `PaStreamParameters` that `setParams` fills from the
options. -/
structure PaStreamParameters where
  device : Int
  channelCount : Nat
  sampleFormat : PaSampleFormat
  deriving DecidableEq

/-- The `switch (sampleFormat)` of `PaContext::setParams`
(`PaContext.cc:253-261`), as a partial map. -/
def mapSampleFormat (sampleFormat : Nat) : Option PaSampleFormat :=
  if sampleFormat = 1 then some .paFloat32
  else if sampleFormat = 8 then some .paInt8
  else if sampleFormat = 16 then some .paInt16
  else if sampleFormat = 24 then some .paInt24
  else if sampleFormat = 32 then some .paInt32
  else none

/-- `PaContext::setParams` (`PaContext.cc:235-273`): resolve the device (with
fallback to the default device on an out-of-range id), validate the channel
count and sample format, and produce stream parameters plus the sample
rate.  `Except.error` models `throw`. -/
def setParams (engine : Engine) (isInput : Bool) (options : AudioOptions) :
    Except String (PaStreamParameters × ℚ) :=
  let deviceID : Int := options.deviceID
  let device : Int :=
    if 0 ≤ deviceID ∧ deviceID < engine.deviceCount then deviceID
    else if isInput then engine.defaultInputDevice else engine.defaultOutputDevice
  if device = paNoDevice then .error "No default device"
  else
    let maxChannels : Int :=
      if isInput then engine.maxInputChannels device
      else engine.maxOutputChannels device
    if (options.channelCount : Int) > maxChannels then
      .error "Channel count exceeds maximum number of channels for device"
    else
      match mapSampleFormat options.sampleFormat with
      | none => .error "Invalid sampleFormat"
      | some fmt =>
        .ok (⟨device, options.channelCount, fmt⟩, (options.sampleRate : ℚ))

/-- What a successful `PaContext` construction determines. -/
structure PaContextInit where
  inParams : Option PaStreamParameters
  outParams : Option PaStreamParameters
  sampleRate : ℚ
  mInLatency : ℚ

/-- `PaContext::PaContext` (`PaContext.cc:37-97`): initialize the engine,
validate the option pair, build stream parameters for each configured
direction, probe format support and open the stream.  `Except.error` models a
thrown construction failure (the stream is then never opened). -/
def paContextConstruct (engine : Engine)
    (inOptions outOptions : Option AudioOptions) :
    Except String PaContextInit :=
  if engine.initOk = false then .error "Could not initialize PortAudio"
  else if inOptions.isNone && outOptions.isNone then
    .error "Input and/or Output options must be specified"
  else if (match inOptions, outOptions with
           | some i, some o => i.sampleRate != o.sampleRate
           | _, _ => false) then
    .error "Input and Output sample rates must match"
  else
    match (match inOptions with
           | none => .ok (none, none)
           | some o => (setParams engine true o).map fun p => (some p.1, some p.2) :
             Except String (Option PaStreamParameters × Option ℚ)) with
    | .error e => .error e
    | .ok (inParams, inRate) =>
      match (match outOptions with
             | none => .ok (none, none)
             | some o => (setParams engine false o).map fun p => (some p.1, some p.2) :
               Except String (Option PaStreamParameters × Option ℚ)) with
      | .error e => .error e
      | .ok (outParams, outRate) =>
        if engine.formatSupported = false then .error "Format not supported"
        else if engine.openOk = false then .error "Could not open stream"
        else .ok ⟨inParams, outParams, (outRate.getD (inRate.getD 0)),
          engine.inputLatency⟩

/-! ### Successive fills (byte conservation) -/

/-- The total byte count over the fill-algorithm calls of `reqs`, stopping
after the call that reports `finished` (0 if a call would block). -/
def sumFills (o : AudioOptions) (isInput : Bool) : Chunks → List Nat → Nat
  | _, [] => 0
  | q, n :: rest =>
    match fillBuffer o isInput q n with
    | none => 0
    | some r => r.bytesRead + (if r.finished then 0 else sumFills o isInput r.queue rest)

/-- Total byte length of a sequence of chunks. -/
def totalBytes (cs : List Chunk) : Nat := ((cs.map Chunk.data).flatten).length

/-- Byte conservation over successive fill calls against one quitting queue:
the total returned equals `min (remaining bytes) (sum of requests)`. -/
theorem sumFills_spec (o : AudioOptions) (isInput : Bool) :
    ∀ (reqs : List Nat) (q : Chunks), q.quitting = true → q.Valid →
      sumFills o isInput q reqs = min q.remBytes reqs.sum := by
  intro reqs
  induction reqs with
  | nil => intro q hq hv; simp [sumFills]
  | cons n rest IH =>
    intro q hq hv
    obtain ⟨r, hr, hout, hbytes, hfin, hqrem, hqv, hqq⟩ :=
      fillBuffer_spec o isInput q n hq hv
    have hrb : r.queue.remBytes = q.remBytes - n := by
      rw [Chunks.remBytes, hqrem]
      simp [Chunks.remBytes]
    rw [sumFills, hr]
    simp only [hbytes, hfin, decide_eq_true_eq]
    by_cases hTn : q.remBytes < n
    · rw [if_pos hTn]
      simp
      omega
    · rw [if_neg hTn, IH r.queue hqq hqv, hrb]
      simp
      omega

/-- The `ofChunks` state is valid. -/
theorem ofChunks_valid (cs : List Chunk) : (Chunks.ofChunks cs).Valid := by
  simp [Chunks.ofChunks, Chunks.Valid, Chunks.curBytes, Chunks.curData]

/-- The unconsumed data of an `ofChunks` state is the concatenation of the
pushed chunks. -/
theorem ofChunks_remBytes (cs : List Chunk) :
    (Chunks.ofChunks cs).remBytes = totalBytes cs := by
  simp [Chunks.remBytes, Chunks.remData, Chunks.ofChunks, Chunks.curData, totalBytes]

/-- C3: for any sequence of chunks pushed onto a queue with total byte length
`T`, the byte counts returned by successive fill-algorithm calls (up to and
including the call that sets `finished`) sum to `min T (sum of requests)`,
and within a finished call every destination byte beyond the returned count
is zero. -/
theorem fill_byte_conservation (o : AudioOptions) (isInput : Bool)
    (cs : List Chunk) (reqs : List Nat) :
    sumFills o isInput (Chunks.ofChunks cs) reqs = min (totalBytes cs) reqs.sum
    ∧ ∀ (q : Chunks) (n : Nat) (r : FillResult),
        q.quitting = true → q.Valid → fillBuffer o isInput q n = some r →
        r.finished = true →
        r.out.drop r.bytesRead = List.replicate (n - r.bytesRead) 0 := by
  constructor
  · rw [sumFills_spec o isInput reqs (Chunks.ofChunks cs) rfl (ofChunks_valid cs),
      ofChunks_remBytes]
  · intro q n r hq hv hfill hfin
    obtain ⟨r', hr', hout, hbytes, hfinr, hqrem, hv2, hq2⟩ :=
      fillBuffer_spec o isInput q n hq hv
    rw [hfill] at hr'
    injection hr' with hrr
    subst hrr
    have hTn : q.remBytes < n := of_decide_eq_true (hfinr ▸ hfin)
    have hTn2 : q.remData.length < n := hTn
    have hb : r.bytesRead = q.remBytes := by rw [hbytes]; omega
    have hlen : (q.remData.take n).length = q.remBytes := by
      show (q.remData.take n).length = q.remData.length
      simp [List.length_take]
      omega
    rw [hout, hb, List.drop_append_eq_append_drop, hlen,
      List.drop_eq_nil_of_le (le_of_eq hlen), Nat.sub_self]
    simp

/-- C3 witness. -/
theorem fill_byte_conservation_witness :
    (sumFills ⟨-1, 2, 1, 32, 48000, 0, false⟩ false
        (Chunks.ofChunks [⟨[1, 2, 3], 0⟩, ⟨[4, 5], 0⟩]) [2, 2, 2]
      = min (totalBytes [⟨[1, 2, 3], 0⟩, ⟨[4, 5], 0⟩]) ([2, 2, 2] : List Nat).sum)
    ∧ (FillResult.mk (List.replicate 4 0) 0 0 true ⟨none, 0, [], true, 0⟩).out.drop
        (FillResult.mk (List.replicate 4 0) 0 0 true ⟨none, 0, [], true, 0⟩).bytesRead
      = List.replicate (4 - (FillResult.mk (List.replicate 4 0) 0 0 true
          ⟨none, 0, [], true, 0⟩).bytesRead) 0 := by
  have h := fill_byte_conservation ⟨-1, 2, 1, 32, 48000, 0, false⟩ false
    [⟨[1, 2, 3], 0⟩, ⟨[4, 5], 0⟩] [2, 2, 2]
  exact ⟨h.1, h.2 (Chunks.ofChunks []) 4
    (FillResult.mk (List.replicate 4 0) 0 0 true ⟨none, 0, [], true, 0⟩)
    rfl (by decide) (by decide) rfl⟩

/-- C2: whenever the fill loop still needs `numBytes > 0` bytes and, upon
`waitNext`, the queue is exhausted (`queued = []`) and quitting, the
remaining `numBytes` of the destination are zero-filled, `finished` is set,
and the loop stops returning the bytes written so far; the result is a normal
return (`some`), not an error — queue exhaustion has no error channel. -/
theorem fill_drain_to_silence (o : AudioOptions) (isInput : Bool) (fuel : Nat)
    (q : Chunks) (n : Nat) (acc : List Nat) (ts : ℚ)
    (hn : n ≠ 0) (hqd : q.queued = []) (hq : q.quitting = true)
    (hcond : (q.curBuf.isNone || (q.curBytes == q.curOffset)) = true) :
    fillLoop o isInput (fuel + 1) q n acc ts
      = some ⟨acc ++ List.replicate n 0, acc.length, ts, true,
          { q with current := none, headOffset := 0 }⟩ := by
  have hwn : q.waitNext = some { q with current := none, headOffset := 0 } := by
    simp [Chunks.waitNext, hqd, hq]
  exact fillLoop_succ_finish o isInput fuel q n acc ts _ hn
    (by rw [if_pos hcond, hwn]) (by simp [Chunks.curBuf])

/-- C2 witness: an output fill of 256 bytes against an empty quitting queue
zero-fills all 256 bytes and reports `finished`. -/
theorem fill_drain_to_silence_witness :
    fillLoop ⟨-1, 2, 1, 32, 48000, 0, false⟩ false (256 + 1)
        (Chunks.ofChunks []) 256 [] 0
      = some ⟨[] ++ List.replicate 256 0, ([] : List Nat).length, 0, true,
          { Chunks.ofChunks [] with current := none, headOffset := 0 }⟩ :=
  fill_drain_to_silence ⟨-1, 2, 1, 32, 48000, 0, false⟩ false 256
    (Chunks.ofChunks []) 256 [] 0 (by decide) rfl rfl (by decide)

/-- C6: the amount the fill loop passes to `incOffset` is
`min numBytes (curBytes - curOffset)`, which always satisfies the queue's
documented precondition; consequently, starting from a valid state the head
offset never advances past the current chunk's length, at any point of the
loop. -/
theorem fill_incOffset_precondition (o : AudioOptions) (isInput : Bool)
    (fuel : Nat) (q : Chunks) (n numBytes : Nat) (acc : List Nat) (ts : ℚ)
    (r : FillResult) (hv : q.Valid)
    (h : fillLoop o isInput fuel q n acc ts = some r) :
    min numBytes (q.curBytes - q.curOffset) ≤ q.curBytes - q.curOffset
    ∧ (q.incOffset (min numBytes (q.curBytes - q.curOffset))).Valid
    ∧ r.queue.Valid := by
  refine ⟨Nat.min_le_right _ _, ?_,
    fillLoop_valid o isInput fuel q n acc ts r hv h⟩
  have hv2 : q.headOffset ≤ q.curBytes := hv
  have h4 : q.curOffset = q.headOffset := rfl
  show q.headOffset + min numBytes (q.curBytes - q.curOffset) ≤ q.curBytes
  omega

/-- C6 witness. -/
theorem fill_incOffset_precondition_witness :
    min 7 ((Chunks.ofChunks [⟨[1, 2, 3], 0⟩]).curBytes
        - (Chunks.ofChunks [⟨[1, 2, 3], 0⟩]).curOffset)
      ≤ (Chunks.ofChunks [⟨[1, 2, 3], 0⟩]).curBytes
        - (Chunks.ofChunks [⟨[1, 2, 3], 0⟩]).curOffset
    ∧ ((Chunks.ofChunks [⟨[1, 2, 3], 0⟩]).incOffset
        (min 7 ((Chunks.ofChunks [⟨[1, 2, 3], 0⟩]).curBytes
          - (Chunks.ofChunks [⟨[1, 2, 3], 0⟩]).curOffset))).Valid
    ∧ (FillResult.mk [1, 2, 3, 0, 0] 3 0 true ⟨none, 0, [], true, 0⟩).queue.Valid :=
  fill_incOffset_precondition ⟨-1, 2, 1, 32, 48000, 0, false⟩ false
    (5 + 0 + 1) (Chunks.ofChunks [⟨[1, 2, 3], 0⟩]) 5 7 [] 0
    (FillResult.mk [1, 2, 3, 0, 0] 3 0 true ⟨none, 0, [], true, 0⟩)
    (by decide) (by decide)

/-- C5: `pullInChunk(numBytes)` runs the fill algorithm against the input
queue; with yield `b = numBytes` the buffer is returned untrimmed at length
`numBytes`, with `0 < b < numBytes` the result is the trim to exactly the
first `b` fill bytes, and with `b = 0` no data buffer is returned. -/
theorem pullInChunk_trims (st : PaContextState) (o : AudioOptions)
    (numBytes : Nat) (r : FillResult) (ho : st.mInOptions = some o)
    (hr : fillBuffer o true st.mInChunks numBytes = some r) :
    pullInChunk st numBytes
      = some (if r.bytesRead = numBytes then some r.out
              else if r.bytesRead = 0 then none
              else some (r.out.take r.bytesRead),
          r.timeStamp, r.finished, { st with mInChunks := r.queue })
    ∧ r.out.length = numBytes
    ∧ (r.bytesRead < numBytes → (r.out.take r.bytesRead).length = r.bytesRead) := by
  have hlen : r.out.length = numBytes := by
    have := fillLoop_out_length o true
      (numBytes + st.mInChunks.queued.length + 1) st.mInChunks numBytes [] 0 r hr
    simpa using this
  refine ⟨?_, hlen, ?_⟩
  · simp only [pullInChunk, ho, hr, Option.map_some']
    by_cases h1 : r.bytesRead = numBytes
    · simp [h1]
    · by_cases h2 : r.bytesRead = 0 <;> simp [h1, h2]
  · intro hlt
    simp [List.length_take, hlen]
    omega

/-- C5 witness. -/
theorem pullInChunk_trims_witness :
    (pullInChunk
        ⟨some ⟨-1, 2, 1, 32, 48000, 0, false⟩, none, Chunks.ofChunks [], Chunks.ofChunks [], "", 0, 0⟩ 3
      = some (if (FillResult.mk [0, 0, 0] 0 0 true ⟨none, 0, [], true, 0⟩).bytesRead = 3
              then some (FillResult.mk [0, 0, 0] 0 0 true ⟨none, 0, [], true, 0⟩).out
              else if (FillResult.mk [0, 0, 0] 0 0 true ⟨none, 0, [], true, 0⟩).bytesRead = 0
              then none
              else some ((FillResult.mk [0, 0, 0] 0 0 true ⟨none, 0, [], true, 0⟩).out.take
                (FillResult.mk [0, 0, 0] 0 0 true ⟨none, 0, [], true, 0⟩).bytesRead),
          (FillResult.mk [0, 0, 0] 0 0 true ⟨none, 0, [], true, 0⟩).timeStamp,
          (FillResult.mk [0, 0, 0] 0 0 true ⟨none, 0, [], true, 0⟩).finished,
          { (⟨some ⟨-1, 2, 1, 32, 48000, 0, false⟩, none, Chunks.ofChunks [],
              Chunks.ofChunks [], "", 0, 0⟩ : PaContextState) with
            mInChunks := (FillResult.mk [0, 0, 0] 0 0 true ⟨none, 0, [], true, 0⟩).queue }))
    ∧ (FillResult.mk [0, 0, 0] 0 0 true ⟨none, 0, [], true, 0⟩).out.length = 3
    ∧ ((FillResult.mk [0, 0, 0] 0 0 true ⟨none, 0, [], true, 0⟩).bytesRead < 3 →
        ((FillResult.mk [0, 0, 0] 0 0 true ⟨none, 0, [], true, 0⟩).out.take
          (FillResult.mk [0, 0, 0] 0 0 true ⟨none, 0, [], true, 0⟩).bytesRead).length
        = (FillResult.mk [0, 0, 0] 0 0 true ⟨none, 0, [], true, 0⟩).bytesRead) :=
  pullInChunk_trims
    ⟨some ⟨-1, 2, 1, 32, 48000, 0, false⟩, none, Chunks.ofChunks [], Chunks.ofChunks [], "", 0, 0⟩
    ⟨-1, 2, 1, 32, 48000, 0, false⟩ 3
    (FillResult.mk [0, 0, 0] 0 0 true ⟨none, 0, [], true, 0⟩) rfl (by decide)

/-- With `isInput = false` the fill loop never derives a timestamp: the
`timeStamp` out-parameter keeps its initial value (the guard at
`PaContext.cc:217` requires `isInput`). -/
theorem fillLoop_ts_output (o : AudioOptions) :
    ∀ (fuel : Nat) (q : Chunks) (n : Nat) (acc : List Nat) (ts : ℚ)
      (r : FillResult),
      fillLoop o false fuel q n acc ts = some r → r.timeStamp = ts := by
  intro fuel
  induction fuel with
  | zero => intro q n acc ts r h; simp [fillLoop] at h
  | succ fuel IH =>
    intro q n acc ts r h
    by_cases hn : n = 0
    · subst hn
      rw [fillLoop_succ_done] at h
      simp at h
      simp [← h]
    · cases hw : (if q.curBuf.isNone || (q.curBytes == q.curOffset)
          then q.waitNext else some q) with
      | none => rw [fillLoop, if_neg hn, hw] at h; simp at h
      | some q1 =>
        by_cases hns : q1.curBuf.isNone = true
        · rw [fillLoop_succ_finish o false fuel q n acc ts q1 hn hw hns] at h
          simp at h
          simp [← h]
        · rw [fillLoop_succ_step o false fuel q n acc ts q1 hn hw
            (by
              cases hb : q1.curBuf.isNone
              · rfl
              · exact absurd hb hns)] at h
          simp only [Bool.and_false, Bool.false_eq_true, if_false] at h
          exact IH _ _ _ _ _ h

/-- On the input path, a fill that starts by copying from the current chunk
(present and not fully consumed) returns the chunk's timestamp plus the
per-byte offset correction, derived on the first iteration. -/
theorem fillBuffer_ts_input_general (o : AudioOptions) (q : Chunks) (n : Nat)
    (c : Chunk) (hq : q.quitting = true) (hv : q.Valid)
    (hc : q.current = some c) (hlt : q.headOffset < c.data.length) (hn : n ≠ 0) :
    (fillBuffer o true q n).map FillResult.timeStamp
      = some (c.ts + (q.headOffset : ℚ) / (o.channelCount : ℚ)
          / ((o.sampleBits / 8 : Nat) : ℚ) / (o.sampleRate : ℚ)) := by
  have h1 : q.curBytes = c.data.length := by
    simp [Chunks.curBytes, Chunks.curData, hc]
  have h2 : q.curOffset = q.headOffset := rfl
  have hcb : q.curBuf.isNone = false := by simp [Chunks.curBuf, hc]
  have hcbo : (q.curBytes == q.curOffset) = false := by
    simp [h1, h2]
    omega
  have hsc : (if q.curBuf.isNone || (q.curBytes == q.curOffset)
      then q.waitNext else some q) = some q := by
    rw [if_neg (by simp [hcb, hcbo])]
  rw [fillBuffer,
    fillLoop_succ_step o true (n + q.queued.length) q n [] 0 q hn hsc hcb]
  have hts : (if ([] : List Nat).length == 0 && true then
        q.curTs + (q.curOffset : ℚ) / (o.channelCount : ℚ)
          / ((o.sampleBits / 8 : Nat) : ℚ) / (o.sampleRate : ℚ)
      else 0)
      = c.ts + (q.headOffset : ℚ) / (o.channelCount : ℚ)
          / ((o.sampleBits / 8 : Nat) : ℚ) / (o.sampleRate : ℚ) := by
    simp [Chunks.curTs, Chunks.curOffset, hc]
  rw [hts]
  have hq2 : (q.incOffset (min n (q.curBytes - q.curOffset))).quitting = true := by
    simp [Chunks.incOffset, hq]
  have hv2 : (q.incOffset (min n (q.curBytes - q.curOffset))).Valid := by
    have hv' : q.headOffset ≤ q.curBytes := hv
    show q.headOffset + min n (q.curBytes - q.curOffset) ≤ q.curBytes
    omega
  have h6 : q.curBytes - q.curOffset = c.data.length - q.headOffset := by
    rw [h1, h2]
  have h7 : 1 ≤ min n (q.curBytes - q.curOffset) := by
    rw [h6]
    omega
  have hfuel2 : (n - min n (q.curBytes - q.curOffset)) + q.queued.length + 1
      ≤ n + q.queued.length := by omega
  have hfuel : (n - min n (q.curBytes - q.curOffset))
      + (q.incOffset (min n (q.curBytes - q.curOffset))).queued.length + 1
      ≤ n + q.queued.length := hfuel2
  obtain ⟨r, hr, -, -, -, -, -, -⟩ :=
    fillLoop_spec o true (n + q.queued.length)
      (q.incOffset (min n (q.curBytes - q.curOffset)))
      (n - min n (q.curBytes - q.curOffset))
      ([] ++ (q.curData.drop q.curOffset).take (min n (q.curBytes - q.curOffset)))
      (c.ts + (q.headOffset : ℚ) / (o.channelCount : ℚ)
        / ((o.sampleBits / 8 : Nat) : ℚ) / (o.sampleRate : ℚ))
      hq2 hv2 hfuel
  rw [hr]
  have hne : ([] ++ (q.curData.drop q.curOffset).take
      (min n (q.curBytes - q.curOffset))) ≠ [] := by
    have h10 : q.curData = c.data := by simp [Chunks.curData, hc]
    simp only [List.nil_append]
    intro hcontra
    have hl := congrArg List.length hcontra
    simp only [List.length_take, List.length_drop, List.length_nil, h10] at hl
    have h8 : q.curBytes = c.data.length := h1
    have h9 : q.curOffset = q.headOffset := rfl
    omega
  have hfr := fillLoop_ts_frozen o true (n + q.queued.length) _ _ _ _ r hne hr
  simp [hfr]

/-- C1 (amended): an input fill that copies at least one byte derives the
returned timestamp on the first copy iteration as the current chunk's stored
timestamp plus `currentOffset / channelCount / bytesPerSample / sampleRate`
(with `channelCount=2`, `bytesPerSample=4` (32-bit samples),
`sampleRate=48000`, `currentOffset=96` this is `t0 + 12/48000`); this holds
for the **input** fill path only — the output fill path never derives a
timestamp and always returns 0. -/
theorem fill_timestamp_first_iteration (o : AudioOptions) (q : Chunks) (n : Nat)
    (c : Chunk) (hq : q.quitting = true) (hv : q.Valid)
    (hc : q.current = some c) (hlt : q.headOffset < c.data.length) (hn : n ≠ 0) :
    ((fillBuffer o true q n).map FillResult.timeStamp
      = some (c.ts + (q.headOffset : ℚ) / (o.channelCount : ℚ)
          / ((o.sampleBits / 8 : Nat) : ℚ) / (o.sampleRate : ℚ)))
    ∧ (∀ (q2 : Chunks) (n2 : Nat) (r : FillResult),
        fillBuffer o false q2 n2 = some r → r.timeStamp = 0)
    ∧ (∀ t0 : ℚ,
        (fillBuffer ⟨-1, 2, 1, 32, 48000, 0, false⟩ true
            ⟨some ⟨List.replicate 104 7, t0⟩, 96, [], true, 0⟩ 8).map
          FillResult.timeStamp
        = some (t0 + 12 / 48000)) := by
  refine ⟨fillBuffer_ts_input_general o q n c hq hv hc hlt hn,
    fun q2 n2 r h => fillLoop_ts_output o _ q2 n2 [] 0 r h, fun t0 => ?_⟩
  rw [fillBuffer_ts_input_general ⟨-1, 2, 1, 32, 48000, 0, false⟩
    ⟨some ⟨List.replicate 104 7, t0⟩, 96, [], true, 0⟩ 8 ⟨List.replicate 104 7, t0⟩
    rfl (by simp [Chunks.Valid, Chunks.curBytes, Chunks.curData]) rfl
    (by simp) (by decide)]
  norm_num

/-- C1 counterexample: at the claim's own parameters (`channelCount = 2`,
`bytesPerSample = 4` (32-bit samples), `sampleRate = 48000`,
`currentOffset = 96`, chunk timestamp `t0 = 1`) the **output** fill path
returns timestamp 0, not `t0 + 12/48000`: the derivation at
`PaContext.cc:217` is guarded by `isInput`. -/
theorem fill_timestamp_output_counterexample :
    (fillBuffer ⟨-1, 2, 1, 32, 48000, 0, false⟩ false
        ⟨some ⟨List.replicate 104 7, 1⟩, 96, [], true, 0⟩ 8).map
      FillResult.timeStamp = some 0
    ∧ (0 : ℚ) ≠ 1 + 12 / 48000 := by
  constructor
  · decide
  · norm_num

/-- C1 witness. -/
theorem fill_timestamp_first_iteration_witness :
    ((fillBuffer ⟨-1, 2, 1, 32, 48000, 0, false⟩ true
        ⟨some ⟨List.replicate 104 7, 0⟩, 96, [], true, 0⟩ 8).map
        FillResult.timeStamp
      = some ((0 : ℚ) + ((96 : Nat) : ℚ) / ((2 : Nat) : ℚ)
          / ((32 / 8 : Nat) : ℚ) / ((48000 : Nat) : ℚ)))
    ∧ (∀ (q2 : Chunks) (n2 : Nat) (r : FillResult),
        fillBuffer ⟨-1, 2, 1, 32, 48000, 0, false⟩ false q2 n2 = some r →
        r.timeStamp = 0)
    ∧ (∀ t0 : ℚ,
        (fillBuffer ⟨-1, 2, 1, 32, 48000, 0, false⟩ true
            ⟨some ⟨List.replicate 104 7, t0⟩, 96, [], true, 0⟩ 8).map
          FillResult.timeStamp
        = some (t0 + 12 / 48000)) :=
  fill_timestamp_first_iteration ⟨-1, 2, 1, 32, 48000, 0, false⟩
    ⟨some ⟨List.replicate 104 7, 0⟩, 96, [], true, 0⟩ 8 ⟨List.replicate 104 7, 0⟩
    rfl (by decide) rfl (by decide) (by decide)

/-- `checkStatus` only touches `mErrStr`: the input options are unchanged. -/
theorem checkStatus_mInOptions (st : PaContextState) (flags : Nat) :
    (checkStatus st flags).mInOptions = st.mInOptions := by
  unfold checkStatus
  split <;> rfl

/-- `checkStatus` only touches `mErrStr`: the output options are unchanged. -/
theorem checkStatus_mOutOptions (st : PaContextState) (flags : Nat) :
    (checkStatus st flags).mOutOptions = st.mOutOptions := by
  unfold checkStatus
  split <;> rfl

/-- `checkStatus` only touches `mErrStr`: the input queue is unchanged. -/
theorem checkStatus_mInChunks (st : PaContextState) (flags : Nat) :
    (checkStatus st flags).mInChunks = st.mInChunks := by
  unfold checkStatus
  split <;> rfl

/-- `checkStatus` only touches `mErrStr`: the output queue is unchanged. -/
theorem checkStatus_mOutChunks (st : PaContextState) (flags : Nat) :
    (checkStatus st flags).mOutChunks = st.mOutChunks := by
  unfold checkStatus
  split <;> rfl

/-- `readPaBuffer` always reports `true`, and only touches the input queue. -/
theorem readPaBuffer_some (st : PaContextState) (srcBuf : List Nat)
    (frameCount : Nat) (ts : ℚ) (st2 : PaContextState) (b : Bool)
    (h : readPaBuffer st srcBuf frameCount ts = some (st2, b)) :
    b = true ∧ st2.mOutOptions = st.mOutOptions
    ∧ st2.mOutChunks = st.mOutChunks := by
  unfold readPaBuffer at h
  cases hio : st.mInOptions with
  | none => rw [hio] at h; simp at h
  | some o =>
    rw [hio] at h
    simp only [] at h
    cases hp : st.mInChunks.push
        ⟨srcBuf.take (frameCount * o.channelCount * o.sampleBits / 8), ts⟩ with
    | none => rw [hp] at h; simp at h
    | some c =>
      rw [hp] at h
      simp only [Option.map_some', Option.some.injEq, Prod.mk.injEq] at h
      obtain ⟨h1, h2⟩ := h
      subst h1
      subst h2
      exact ⟨rfl, rfl, rfl⟩

/-- C4: the callback returns `paComplete` exactly when every configured
direction reports complete: the input direction is complete iff input is not
configured (a configured input always reports continue), and the output
direction is complete iff output is not configured or its fill reported
`finished`. -/
theorem callback_complete_iff (st : PaContextState) (input : List Nat)
    (frameCount : Nat) (ti : TimeInfo) (flags : Nat)
    (ret : PaRet) (st2 : PaContextState) (outBuf : List Nat)
    (h : PaCallback st input frameCount ti flags = some (ret, st2, outBuf)) :
    ret = PaRet.paComplete
      ↔ (st.mInOptions = none
         ∧ (st.mOutOptions = none
            ∨ ∃ o r, st.mOutOptions = some o
                ∧ fillBuffer o false st.mOutChunks
                    (frameCount * o.channelCount * o.sampleBits / 8) = some r
                ∧ r.finished = true)) := by
  unfold PaCallback at h
  simp only [PaContextState.hasInput, PaContextState.hasOutput,
    checkStatus_mInOptions] at h
  cases hin : st.mInOptions with
  | some oIn =>
    rw [hin] at h
    simp only [Option.isSome_some, if_true] at h
    cases hrd : readPaBuffer (checkStatus st flags) input frameCount
        (if ti.inputBufferAdcTime > 0 then ti.inputBufferAdcTime
         else st.getCurTime - st.getInLatency) with
    | none => rw [hrd] at h; simp at h
    | some p =>
      obtain ⟨st3, b⟩ := p
      obtain ⟨hb, hoo3, hoc3⟩ := readPaBuffer_some _ _ _ _ _ _ hrd
      subst hb
      rw [hrd] at h
      rw [checkStatus_mOutOptions] at hoo3
      rw [checkStatus_mOutChunks] at hoc3
      simp only [hoo3, hoc3, Bool.and_true] at h
      cases hoo : st.mOutOptions with
      | none =>
        simp only [hoo, Option.isSome_none, Bool.false_eq_true, if_false,
          if_true, reduceCtorEq, false_and, Option.some.injEq,
          Prod.mk.injEq] at h
        obtain ⟨h1, -, -⟩ := h
        simp [← h1, hin]
      | some oOut =>
        simp only [hoo, Option.isSome_some, if_true] at h
        unfold fillPaBuffer at h
        simp only [hoo3, hoo, hoc3] at h
        cases hfb : fillBuffer oOut false st.mOutChunks
            (frameCount * oOut.channelCount * oOut.sampleBits / 8) with
        | none => rw [hfb] at h; simp at h
        | some r =>
          rw [hfb] at h
          simp only [Option.map_some', if_true, reduceCtorEq, false_and,
            if_false, Option.some.injEq, Prod.mk.injEq] at h
          obtain ⟨h1, -, -⟩ := h
          simp [← h1, hin]
  | none =>
    rw [hin] at h
    simp only [Option.isSome_none, Bool.false_eq_true, if_false,
      Bool.false_and] at h
    cases hoo : st.mOutOptions with
    | none =>
      simp only [checkStatus_mOutOptions, hoo, Option.isSome_none,
        Bool.false_eq_true, if_false, Bool.false_and, and_self, if_true,
        Option.some.injEq, Prod.mk.injEq] at h
      obtain ⟨h1, -, -⟩ := h
      simp [← h1, hin, hoo]
    | some oOut =>
      simp only [checkStatus_mOutOptions, hoo, Option.isSome_some, if_true] at h
      unfold fillPaBuffer at h
      simp only [checkStatus_mOutOptions, checkStatus_mOutChunks, hoo] at h
      cases hfb : fillBuffer oOut false st.mOutChunks
          (frameCount * oOut.channelCount * oOut.sampleBits / 8) with
      | none => rw [hfb] at h; simp at h
      | some r =>
        rw [hfb] at h
        cases hfin : r.finished with
        | true =>
          simp only [hfin, Option.map_some', Bool.not_true, Bool.and_false,
            Bool.false_eq_true, if_false, and_self, if_true,
            Option.some.injEq, Prod.mk.injEq] at h
          obtain ⟨h1, -, -⟩ := h
          rw [← h1]
          simp only [hin, hoo, true_iff, true_and]
          exact Or.inr ⟨oOut, r, rfl, hfb, hfin⟩
        | false =>
          simp only [hfin, Option.map_some', Bool.not_false, Bool.and_true,
            Option.isSome_some, if_true, reduceCtorEq, and_false, if_false,
            Option.some.injEq, Prod.mk.injEq] at h
          obtain ⟨h1, -, -⟩ := h
          rw [← h1]
          simp only [reduceCtorEq, false_iff, not_and, hoo]
          intro
          rintro (hno | ⟨o2, r2, ho2, hf2, hfin2⟩)
          · exact hno
          · injection ho2 with ho2e
            subst ho2e
            rw [hfb] at hf2
            injection hf2 with hf2e
            subst hf2e
            rw [hfin] at hfin2
            exact Bool.noConfusion hfin2

/-- C4 witness. -/
theorem callback_complete_iff_witness :
    PaCallback ⟨none, none, Chunks.ofChunks [], Chunks.ofChunks [], "", 0, 0⟩
        [] 8 ⟨2, 0⟩ 0
      = some (PaRet.paComplete,
          ⟨none, none, Chunks.ofChunks [], Chunks.ofChunks [], "", 0, 0⟩, [])
    ∧ (PaRet.paComplete = PaRet.paComplete
      ↔ ((⟨none, none, Chunks.ofChunks [], Chunks.ofChunks [], "", 0, 0⟩ :
            PaContextState).mInOptions = none
         ∧ ((⟨none, none, Chunks.ofChunks [], Chunks.ofChunks [], "", 0, 0⟩ :
              PaContextState).mOutOptions = none
            ∨ ∃ o r, (⟨none, none, Chunks.ofChunks [], Chunks.ofChunks [],
                  "", 0, 0⟩ : PaContextState).mOutOptions = some o
                ∧ fillBuffer o false (⟨none, none, Chunks.ofChunks [],
                    Chunks.ofChunks [], "", 0, 0⟩ :
                      PaContextState).mOutChunks
                    (8 * o.channelCount * o.sampleBits / 8) = some r
                ∧ r.finished = true))) := by
  have hcal : PaCallback
      ⟨none, none, Chunks.ofChunks [], Chunks.ofChunks [], "", 0, 0⟩ [] 8 ⟨2, 0⟩ 0
      = some (PaRet.paComplete,
          ⟨none, none, Chunks.ofChunks [], Chunks.ofChunks [], "", 0, 0⟩, []) := by
    decide
  exact ⟨hcal, callback_complete_iff _ [] 8 ⟨2, 0⟩ 0 _ _ _ hcal⟩

/-- C7: for every callback invocation with input configured that returns
(the input push does not block: here the input queue is not quitting and
unbounded), the chunk pushed onto the input queue carries the hardware ADC
timestamp when it is strictly positive, and otherwise the current stream
time minus the measured input latency — whether or not output is also
configured. -/
theorem callback_input_timestamp (st : PaContextState) (input : List Nat)
    (frameCount : Nat) (ti : TimeInfo) (flags : Nat) (o : AudioOptions)
    (ret : PaRet) (st2 : PaContextState) (outBuf : List Nat)
    (ho : st.mInOptions = some o)
    (hquit : st.mInChunks.quitting = false)
    (hcap : st.mInChunks.maxQueued = 0)
    (h : PaCallback st input frameCount ti flags = some (ret, st2, outBuf)) :
    (st2.mInChunks.queued.getLast?).map Chunk.ts
      = some (if ti.inputBufferAdcTime > 0 then ti.inputBufferAdcTime
          else st.getCurTime - st.getInLatency) := by
  have hpush : st.mInChunks.push
      ⟨input.take (frameCount * o.channelCount * o.sampleBits / 8),
        (if ti.inputBufferAdcTime > 0 then ti.inputBufferAdcTime
         else st.getCurTime - st.getInLatency)⟩
      = some { st.mInChunks with queued := st.mInChunks.queued
          ++ [⟨input.take (frameCount * o.channelCount * o.sampleBits / 8),
              (if ti.inputBufferAdcTime > 0 then ti.inputBufferAdcTime
               else st.getCurTime - st.getInLatency)⟩] } := by
    simp [Chunks.push, hquit, hcap]
  unfold PaCallback readPaBuffer at h
  simp only [PaContextState.hasInput, PaContextState.hasOutput,
    checkStatus_mInOptions, checkStatus_mOutOptions, checkStatus_mInChunks,
    ho, Option.isSome_some, if_true, hpush, Option.map_some'] at h
  cases hoo : st.mOutOptions with
  | none =>
    simp only [hoo, Option.isSome_none, Bool.false_eq_true, if_false,
      Option.some.injEq, Prod.mk.injEq] at h
    obtain ⟨-, h2, -⟩ := h
    subst h2
    simp [List.getLast?_concat]
  | some oOut =>
    simp only [hoo, Option.isSome_some, if_true] at h
    unfold fillPaBuffer at h
    simp only [checkStatus_mOutOptions, checkStatus_mOutChunks, hoo] at h
    cases hfb : fillBuffer oOut false st.mOutChunks
        (frameCount * oOut.channelCount * oOut.sampleBits / 8) with
    | none => rw [hfb] at h; simp at h
    | some r =>
      rw [hfb] at h
      simp only [Option.map_some', Option.some.injEq, Prod.mk.injEq] at h
      obtain ⟨-, h2, -⟩ := h
      subst h2
      simp [List.getLast?_concat]

/-- C7 witness. -/
theorem callback_input_timestamp_witness :
    ((⟨some ⟨-1, 2, 1, 32, 48000, 0, false⟩, none,
        ⟨none, 0, [Chunk.mk [1, 2, 3, 4, 5, 6, 7, 8] 3], false, 0⟩,
        ⟨none, 0, [], false, 0⟩, "", 0,
        7⟩ : PaContextState).mInChunks.queued.getLast?).map Chunk.ts
      = some (if (⟨3, 0⟩ : TimeInfo).inputBufferAdcTime > 0
          then (⟨3, 0⟩ : TimeInfo).inputBufferAdcTime
          else (⟨some ⟨-1, 2, 1, 32, 48000, 0, false⟩, none,
              ⟨none, 0, [], false, 0⟩, ⟨none, 0, [], false, 0⟩,
              "", 0, 7⟩ : PaContextState).getCurTime
            - (⟨some ⟨-1, 2, 1, 32, 48000, 0, false⟩, none,
                ⟨none, 0, [], false, 0⟩, ⟨none, 0, [], false, 0⟩,
                "", 0, 7⟩ : PaContextState).getInLatency) :=
  callback_input_timestamp
    ⟨some ⟨-1, 2, 1, 32, 48000, 0, false⟩, none,
      ⟨none, 0, [], false, 0⟩, ⟨none, 0, [], false, 0⟩, "", 0, 7⟩
    [1, 2, 3, 4, 5, 6, 7, 8, 9] 1 ⟨3, 0⟩ 0 ⟨-1, 2, 1, 32, 48000, 0, false⟩
    PaRet.paContinue
    ⟨some ⟨-1, 2, 1, 32, 48000, 0, false⟩, none,
      ⟨none, 0, [Chunk.mk [1, 2, 3, 4, 5, 6, 7, 8] 3], false, 0⟩,
      ⟨none, 0, [], false, 0⟩, "", 0, 7⟩
    [] rfl rfl rfl (by decide)

/-- C9: the fetch-and-clear error operation clears the stored error under
both policies, copies it into the caller's string only under the
`closeOnError` (propagate) policy, reports a non-empty stored error via the
log side channel under the log-and-continue policy, and returns `true`
exactly when the output string is non-empty. -/
theorem getErrStr_policies (st : PaContextState) (errStr : String)
    (isInput : Bool) (options : AudioOptions)
    (ho : (if isInput then st.mInOptions else st.mOutOptions) = some options) :
    ∃ ret st2 logged,
      getErrStr st errStr isInput
        = some (ret, (if options.closeOnError then st.mErrStr else errStr),
            st2, logged)
      ∧ st2.mErrStr = ""
      ∧ logged = (if options.closeOnError then none
          else if st.mErrStr.length ≠ 0 then some st.mErrStr else none)
      ∧ (ret = true
          ↔ (if options.closeOnError then st.mErrStr else errStr) ≠ "") := by
  unfold getErrStr
  rw [ho]
  refine ⟨_, _, _, rfl, rfl, rfl, ?_⟩
  cases hie : (if options.closeOnError then st.mErrStr else errStr).isEmpty with
  | true =>
    simp only [hie, Bool.not_true, Bool.false_eq_true, false_iff]
    simpa using String.isEmpty_iff _ |>.mp hie
  | false =>
    simp only [hie, Bool.not_false, true_iff]
    intro hcontra
    rw [hcontra] at hie
    exact absurd hie (by decide)

/-- C9 witness. -/
theorem getErrStr_policies_witness :
    ∃ ret st2 logged,
      getErrStr ⟨some ⟨-1, 2, 1, 32, 48000, 0, true⟩, none, Chunks.ofChunks [],
          Chunks.ofChunks [], "portAudio status - input overflow ", 0, 0⟩ "" true
        = some (ret,
            (if (⟨-1, 2, 1, 32, 48000, 0, true⟩ : AudioOptions).closeOnError
             then "portAudio status - input overflow " else ""), st2, logged)
      ∧ st2.mErrStr = ""
      ∧ logged = (if (⟨-1, 2, 1, 32, 48000, 0, true⟩ : AudioOptions).closeOnError
          then none
          else if ("portAudio status - input overflow " : String).length ≠ 0
          then some "portAudio status - input overflow " else none)
      ∧ (ret = true
          ↔ (if (⟨-1, 2, 1, 32, 48000, 0, true⟩ : AudioOptions).closeOnError
              then "portAudio status - input overflow " else "") ≠ "") :=
  getErrStr_policies
    ⟨some ⟨-1, 2, 1, 32, 48000, 0, true⟩, none, Chunks.ofChunks [],
      Chunks.ofChunks [], "portAudio status - input overflow ", 0, 0⟩ "" true
    ⟨-1, 2, 1, 32, 48000, 0, true⟩ rfl

/-- A successful `setParams` implies the sample format was one of the
supported encodings. -/
theorem setParams_ok_format (engine : Engine) (isInput : Bool)
    (options : AudioOptions) (p : PaStreamParameters × ℚ)
    (h : setParams engine isInput options = .ok p) :
    mapSampleFormat options.sampleFormat ≠ none := by
  simp only [setParams] at h
  split_ifs at h
  all_goals
    cases hm : mapSampleFormat options.sampleFormat with
    | none => rw [hm] at h; simp at h
    | some fmt => simp [hm]

/-- A successful construction implies `setParams` succeeded for the input
options. -/
theorem construct_ok_setParams_in (engine : Engine)
    (inO outO : Option AudioOptions) (res : PaContextInit)
    (h : paContextConstruct engine inO outO = .ok res)
    (i : AudioOptions) (hi : inO = some i) :
    ∃ p, setParams engine true i = .ok p := by
  subst hi
  cases hsp : setParams engine true i with
  | ok p => exact ⟨p, rfl⟩
  | error e =>
    exfalso
    unfold paContextConstruct at h
    split_ifs at h
    all_goals try simp at h
    all_goals
      rw [hsp] at h
      simp [Except.map] at h

/-- A successful construction implies `setParams` succeeded for the output
options. -/
theorem construct_ok_setParams_out (engine : Engine)
    (inO outO : Option AudioOptions) (res : PaContextInit)
    (h : paContextConstruct engine inO outO = .ok res)
    (o2 : AudioOptions) (ho2 : outO = some o2) :
    ∃ p, setParams engine false o2 = .ok p := by
  subst ho2
  cases hsp : setParams engine false o2 with
  | ok p => exact ⟨p, rfl⟩
  | error e =>
    exfalso
    unfold paContextConstruct at h
    split_ifs at h
    all_goals try simp at h
    all_goals
      cases hin : inO with
      | none =>
        rw [hin] at h
        simp only [] at h
        rw [hsp] at h
        simp [Except.map] at h
      | some i =>
        rw [hin] at h
        simp only [] at h
        cases hspi : setParams engine true i with
        | error e2 => rw [hspi] at h; simp [Except.map] at h
        | ok pi =>
          rw [hspi] at h
          simp only [Except.map] at h
          rw [hsp] at h
          simp [Except.map] at h

/-- C8: construction fails (throws before the stream is ever opened) when
neither direction's options are present, when both are present with
differing sample rates, and when a present option's sampleFormat is not one
of the five supported encodings 1, 8, 16, 24, 32 (float32, int8, int16,
int24, int32); each supported encoding maps to the corresponding engine
sample format. -/
theorem construct_validation (engine : Engine)
    (inOptions outOptions : Option AudioOptions) :
    (inOptions = none → outOptions = none →
      ∃ e, paContextConstruct engine inOptions outOptions = .error e)
    ∧ (∀ i o2, inOptions = some i → outOptions = some o2 →
        i.sampleRate ≠ o2.sampleRate →
        ∃ e, paContextConstruct engine inOptions outOptions = .error e)
    ∧ (∀ opts, (inOptions = some opts ∨ outOptions = some opts) →
        mapSampleFormat opts.sampleFormat = none →
        ∃ e, paContextConstruct engine inOptions outOptions = .error e)
    ∧ (∀ f, mapSampleFormat f = none
        ↔ ¬(f = 1 ∨ f = 8 ∨ f = 16 ∨ f = 24 ∨ f = 32))
    ∧ mapSampleFormat 1 = some PaSampleFormat.paFloat32
    ∧ mapSampleFormat 8 = some PaSampleFormat.paInt8
    ∧ mapSampleFormat 16 = some PaSampleFormat.paInt16
    ∧ mapSampleFormat 24 = some PaSampleFormat.paInt24
    ∧ mapSampleFormat 32 = some PaSampleFormat.paInt32 := by
  refine ⟨?_, ?_, ?_, ?_, by decide, by decide, by decide, by decide, by decide⟩
  · intro h1 h2
    subst h1
    subst h2
    cases hinit : engine.initOk
    · exact ⟨"Could not initialize PortAudio", by simp [paContextConstruct, hinit]⟩
    · exact ⟨"Input and/or Output options must be specified",
        by simp [paContextConstruct, hinit]⟩
  · intro i o2 hi ho2 hrate
    subst hi
    subst ho2
    cases hinit : engine.initOk
    · exact ⟨"Could not initialize PortAudio", by simp [paContextConstruct, hinit]⟩
    · exact ⟨"Input and Output sample rates must match",
        by simp [paContextConstruct, hinit, bne_iff_ne, hrate]⟩
  · intro opts hpres hmap
    cases hres : paContextConstruct engine inOptions outOptions with
    | error e => exact ⟨e, rfl⟩
    | ok res =>
      exfalso
      rcases hpres with hi | ho2
      · obtain ⟨p, hp⟩ :=
          construct_ok_setParams_in engine inOptions outOptions res hres opts hi
        exact setParams_ok_format engine true opts p hp hmap
      · obtain ⟨p, hp⟩ :=
          construct_ok_setParams_out engine inOptions outOptions res hres opts ho2
        exact setParams_ok_format engine false opts p hp hmap
  · intro f
    unfold mapSampleFormat
    split_ifs <;> simp_all

/-- C8 witness. -/
theorem construct_validation_witness :
    (∃ e, paContextConstruct ⟨true, 2, 0, 0, fun _ => 2, fun _ => 2, true, true, 0⟩
        none none = .error e)
    ∧ (∃ e, paContextConstruct ⟨true, 2, 0, 0, fun _ => 2, fun _ => 2, true, true, 0⟩
        (some ⟨-1, 2, 1, 32, 48000, 0, false⟩)
        (some ⟨-1, 2, 1, 32, 44100, 0, false⟩) = .error e)
    ∧ (∃ e, paContextConstruct ⟨true, 2, 0, 0, fun _ => 2, fun _ => 2, true, true, 0⟩
        (some ⟨-1, 2, 7, 32, 48000, 0, false⟩) none = .error e)
    ∧ (mapSampleFormat 7 = none ↔ ¬(7 = 1 ∨ 7 = 8 ∨ 7 = 16 ∨ 7 = 24 ∨ 7 = 32))
    ∧ mapSampleFormat 1 = some PaSampleFormat.paFloat32 :=
  ⟨(construct_validation ⟨true, 2, 0, 0, fun _ => 2, fun _ => 2, true, true, 0⟩
      none none).1 rfl rfl,
   (construct_validation ⟨true, 2, 0, 0, fun _ => 2, fun _ => 2, true, true, 0⟩
      (some ⟨-1, 2, 1, 32, 48000, 0, false⟩)
      (some ⟨-1, 2, 1, 32, 44100, 0, false⟩)).2.1
      ⟨-1, 2, 1, 32, 48000, 0, false⟩ ⟨-1, 2, 1, 32, 44100, 0, false⟩
      rfl rfl (by decide),
   (construct_validation ⟨true, 2, 0, 0, fun _ => 2, fun _ => 2, true, true, 0⟩
      (some ⟨-1, 2, 7, 32, 48000, 0, false⟩) none).2.2.1
      ⟨-1, 2, 7, 32, 48000, 0, false⟩ (Or.inl rfl) (by decide),
   (construct_validation ⟨true, 2, 0, 0, fun _ => 2, fun _ => 2, true, true, 0⟩
      none none).2.2.2.1 7,
   (construct_validation ⟨true, 2, 0, 0, fun _ => 2, fun _ => 2, true, true, 0⟩
      none none).2.2.2.2.1⟩

/-- C10: with an out-of-range `deviceId` (negative or not below the device
count) the stream parameters silently use the direction's default device on
any success, and the device-reason failure `"No default device"` occurs
exactly when that default device does not exist (`paNoDevice`). -/
theorem setParams_device_fallback (engine : Engine) (isInput : Bool)
    (options : AudioOptions)
    (hbad : options.deviceID < 0 ∨ engine.deviceCount ≤ options.deviceID) :
    (∀ p rate, setParams engine isInput options = .ok (p, rate)
      → p.device = (if isInput then engine.defaultInputDevice
          else engine.defaultOutputDevice))
    ∧ (setParams engine isInput options = .error "No default device"
        ↔ (if isInput then engine.defaultInputDevice
            else engine.defaultOutputDevice) = paNoDevice) := by
  have hsel : ¬(0 ≤ options.deviceID ∧ options.deviceID < engine.deviceCount) := by
    omega
  constructor
  · intro p rate hp
    simp only [setParams] at hp
    rw [if_neg hsel] at hp
    by_cases hnd : (if isInput then engine.defaultInputDevice
        else engine.defaultOutputDevice) = paNoDevice
    · rw [if_pos hnd] at hp
      exact absurd hp (by simp)
    · rw [if_neg hnd] at hp
      by_cases hch : (options.channelCount : Int) >
          (if isInput then
            engine.maxInputChannels (if isInput then engine.defaultInputDevice
              else engine.defaultOutputDevice)
          else engine.maxOutputChannels (if isInput then engine.defaultInputDevice
              else engine.defaultOutputDevice))
      · rw [if_pos hch] at hp
        exact absurd hp (by simp)
      · rw [if_neg hch] at hp
        cases hm : mapSampleFormat options.sampleFormat with
        | none =>
          rw [hm] at hp
          exact absurd hp (by simp)
        | some fmt =>
          rw [hm] at hp
          simp only [Except.ok.injEq, Prod.mk.injEq] at hp
          obtain ⟨hdev, -⟩ := hp
          rw [← hdev]
  · constructor
    · intro he
      simp only [setParams] at he
      rw [if_neg hsel] at he
      by_cases hnd : (if isInput then engine.defaultInputDevice
          else engine.defaultOutputDevice) = paNoDevice
      · exact hnd
      · exfalso
        rw [if_neg hnd] at he
        by_cases hch : (options.channelCount : Int) >
            (if isInput then
              engine.maxInputChannels (if isInput then engine.defaultInputDevice
                else engine.defaultOutputDevice)
            else engine.maxOutputChannels (if isInput then engine.defaultInputDevice
                else engine.defaultOutputDevice))
        · rw [if_pos hch] at he
          injection he with hstr
          exact absurd hstr (by decide)
        · rw [if_neg hch] at he
          cases hm : mapSampleFormat options.sampleFormat with
          | none =>
            rw [hm] at he
            injection he with hstr
            exact absurd hstr (by decide)
          | some fmt =>
            rw [hm] at he
            exact Except.noConfusion he
    · intro hnd
      simp only [setParams]
      rw [if_neg hsel, if_pos hnd]

/-- C10 witness. -/
theorem setParams_device_fallback_witness :
    (∀ p rate, setParams ⟨true, 2, 5, 6, fun _ => 2, fun _ => 2, true, true, 0⟩
        true ⟨-3, 2, 1, 32, 48000, 0, false⟩ = .ok (p, rate)
      → p.device = (if true then
          (⟨true, 2, 5, 6, fun _ => 2, fun _ => 2, true, true, 0⟩ :
            Engine).defaultInputDevice
        else (⟨true, 2, 5, 6, fun _ => 2, fun _ => 2, true, true, 0⟩ :
            Engine).defaultOutputDevice))
    ∧ (setParams ⟨true, 2, 5, 6, fun _ => 2, fun _ => 2, true, true, 0⟩
        true ⟨-3, 2, 1, 32, 48000, 0, false⟩ = .error "No default device"
        ↔ (if true then
            (⟨true, 2, 5, 6, fun _ => 2, fun _ => 2, true, true, 0⟩ :
              Engine).defaultInputDevice
          else (⟨true, 2, 5, 6, fun _ => 2, fun _ => 2, true, true, 0⟩ :
              Engine).defaultOutputDevice) = paNoDevice) :=
  setParams_device_fallback ⟨true, 2, 5, 6, fun _ => 2, fun _ => 2, true, true, 0⟩
    true ⟨-3, 2, 1, 32, 48000, 0, false⟩ (by decide)

end Streampunk
